import Mathlib

/-!
Verification development for a beauty-product search/ranking engine.

The engine (source: a Flask API module) holds an in-memory product catalog
enriched with review aggregates, and answers free-text search queries via
TF-IDF cosine similarity combined with rating / review-volume / sentiment
bonuses.  This file gives a shallow embedding of the build pipeline
(`load_and_preprocess_data`), the search operation
(`get_product_recommendations` and its HTTP route `search_products`) and the
trending operation (`get_trending`), and proves the stated properties.

Modelling conventions:
* text is `List Char`; a missing (NaN) field is `Option.none`;
* real arithmetic is `ℚ`; the library function `np.log1p` is an explicit
  parameter `lp : ℚ → ℚ` of every operation that uses it;
* the fitted TF-IDF vectorizer and document matrix are library objects; the
  engine state carries them as a query-transform function and a list of
  document vectors.  Both are L2-normalized by the library, so the library
  call `cosine_similarity` reduces to the dot product (returning 0 for a
  degenerate zero vector, which the dot product does automatically);
* Python's stable `list.sort(key=..., reverse=True)` is a stable descending
  sort, embedded as `List.insertionSort` with the "greater or equal composite"
  relation (any stable sort has the same, uniquely determined, output);
* `results[:top_n]` is embedded with Python slice semantics, including
  negative indices.
-/

/-! ### Text normalization (`clean_text`) -/

/-- ASCII lowercase letter test, by code point (`a`–`z`). -/
def isLowerAlpha (c : Char) : Bool :=
  decide (97 ≤ c.toNat) && decide (c.toNat ≤ 122)

/-- ASCII uppercase letter test, by code point (`A`–`Z`). -/
def isUpperAlpha (c : Char) : Bool :=
  decide (65 ≤ c.toNat) && decide (c.toNat ≤ 90)

/-- ASCII digit test, by code point (`0`–`9`). -/
def isDigitChar (c : Char) : Bool :=
  decide (48 ≤ c.toNat) && decide (c.toNat ≤ 57)

/-- Characters kept by the regex substitution: the class complementary to
the pattern that replaces every character outside a-z, A-Z, 0-9 and
whitespace with a space. -/
def isKeepChar (c : Char) : Bool :=
  isLowerAlpha c || isUpperAlpha c || isDigitChar c || c.isWhitespace

/-- One step of the regex substitution: keep the character or replace it by
a single space. -/
def normChar (c : Char) : Char :=
  if isKeepChar c then c else ' '

/-- Split on whitespace runs, discarding empty pieces: the behaviour of
Python's argumentless `str.split`.  The accumulator holds the current word
reversed. -/
def pyWordsAux : List Char → List Char → List (List Char)
  | cur, [] => if cur.isEmpty then [] else [cur.reverse]
  | cur, c :: rest =>
    if c.isWhitespace then
      if cur.isEmpty then pyWordsAux [] rest
      else cur.reverse :: pyWordsAux [] rest
    else pyWordsAux (c :: cur) rest

/-- Join a list of words with single spaces: Python's `' '.join`. -/
def joinWords : List (List Char) → List Char
  | [] => []
  | [w] => w
  | w :: ws => w ++ ' ' :: joinWords ws

/-- `clean_text`: lowercase, replace every character outside
a-z / A-Z / 0-9 / whitespace by a space, then collapse whitespace runs and
trim by splitting and re-joining with single spaces.  The empty string maps
to the empty string, which also covers the missing-value guard of the
source. -/
def clean_text (s : List Char) : List Char :=
  joinWords (pyWordsAux [] ((s.map Char.toLower).map normChar))

/-- Detects two consecutive spaces in a string. -/
def hasDoubleSpace : List Char → Bool
  | c1 :: c2 :: rest => (decide (c1 = ' ') && decide (c2 = ' ')) || hasDoubleSpace (c2 :: rest)
  | _ => false

/-- Substring containment, Python's `needle in hay`. -/
def strContains (needle : List Char) : List Char → Bool
  | [] => needle.isEmpty
  | c :: t => needle.isPrefixOf (c :: t) || strContains needle t

/-- Map `str.lower` over a string (ASCII letters only, as in the source's data). -/
def lowerStr (s : List Char) : List Char :=
  s.map Char.toLower

/-! ### Data model -/

/-- A raw catalog row, before preprocessing.  `Option.none` models a missing
(NaN) cell. -/
structure RawProduct where
  product_id : List Char
  product_name : Option (List Char)
  brand_name : Option (List Char)
  primary_category : Option (List Char)
  secondary_category : Option (List Char)
  ingredients : Option (List Char)
  rating : Option ℚ
  reviews : Option ℚ
  price_usd : Option ℚ
deriving DecidableEq

/-- A raw review row. -/
structure RawReview where
  product_id : List Char
  rating : Option ℚ
  review_text : Option (List Char)
deriving DecidableEq

/-- Per-product sentiment aggregate.  In the source this table is produced
from a random sample of reviews scored by an external sentiment library
(TextBlob); the core consumes it as a precomputed per-product scalar, so it
is an input of the build step here. -/
structure SentimentRow where
  product_id : List Char
  avg_sentiment : ℚ
  sample_reviews : List Char
deriving DecidableEq

/-- A fully preprocessed product record, as present in the data frame after
`load_and_preprocess_data` (columns that no later operation reads, such as
the rating standard deviation, are not carried). -/
structure Product where
  product_id : List Char
  product_name : List Char
  brand_name : List Char
  primary_category : List Char
  secondary_category : List Char
  ingredients : List Char
  rating : ℚ
  reviews : ℚ
  price_usd : ℚ
  combined_features : List Char
  final_rating : ℚ
  final_review_count : ℚ
  avg_sentiment : ℚ
  sample_reviews : List Char
deriving DecidableEq

/-- Build one product record: fill missing fields with the source's
defaults, clean the text fields, assemble `combined_features` (the five
cleaned fields joined by fixed single-space separators), and merge the
per-product review statistics (pandas `groupby` mean/count with NaN-skipping
semantics, then a left merge and `fillna` fallback to the listed values) and
the sentiment aggregate. -/
def buildProduct (revs : List RawReview) (sents : List SentimentRow)
    (rp : RawProduct) : Product :=
  let name := rp.product_name.getD []
  let brand := rp.brand_name.getD (("Unknown Brand").data)
  let prim := rp.primary_category.getD (("Skincare").data)
  let sec := rp.secondary_category.getD []
  let ingr := rp.ingredients.getD []
  let rating0 := rp.rating.getD 0
  let reviews0 := rp.reviews.getD 0
  let price0 := rp.price_usd.getD 0
  let nameC := clean_text name
  let brandC := clean_text brand
  let ingrC := clean_text ingr
  let combined :=
    nameC ++ ' ' :: (brandC ++ ' ' :: (clean_text prim ++ ' ' :: (clean_text sec ++ ' ' :: ingrC)))
  let grp := revs.filter (fun rv => decide (rv.product_id = rp.product_id))
  let rs := grp.filterMap (fun rv => rv.rating)
  let sent := sents.find? (fun s => decide (s.product_id = rp.product_id))
  { product_id := rp.product_id
    product_name := name
    brand_name := brand
    primary_category := prim
    secondary_category := sec
    ingredients := ingr
    rating := rating0
    reviews := reviews0
    price_usd := price0
    combined_features := combined
    final_rating := if rs.isEmpty then rating0 else rs.sum / (rs.length : ℚ)
    final_review_count := if grp.isEmpty then reviews0 else (rs.length : ℚ)
    avg_sentiment := match sent with | some s => s.avg_sentiment | none => 0
    sample_reviews := match sent with | some s => s.sample_reviews | none => [] }

/-- The build step: drop rows whose `product_name` is missing (pandas
`dropna(subset=[...])`, which keeps empty strings), then derive every
processed field.  The TF-IDF fit itself is a library call and lives in the
engine state, not here. -/
def load_and_preprocess_data (raws : List RawProduct) (revs : List RawReview)
    (sents : List SentimentRow) : List Product :=
  (raws.filter (fun rp => rp.product_name.isSome)).map (buildProduct revs sents)

/-! ### Vector space index -/

/-- Dot product of two (sparse, here dense) vectors; missing tail entries
count as zero. -/
def dotQ : List ℚ → List ℚ → ℚ
  | [], _ => 0
  | _, [] => 0
  | x :: xs, y :: ys => x * y + dotQ xs ys

/-- Library cosine similarity applied to the stored vectors.  The TF-IDF
vectorizer L2-normalizes every document and query vector it produces, so
cosine similarity reduces to the dot product; a degenerate zero vector
dot-products to 0, which is exactly the required degenerate-case result. -/
def cosineSim (q d : List ℚ) : ℚ :=
  dotQ q d

/-! ### Search operation -/

/-- Python `int()` truncation toward zero of a rational. -/
def pyInt (q : ℚ) : ℤ :=
  Int.tdiv q.num (q.den : ℤ)

/-- Excerpt truncation: cap at `cap` characters, appending an ellipsis
marker when the text was longer. -/
def truncateText (cap : ℕ) (s : List Char) : List Char :=
  if cap < s.length then s.take cap ++ ("...").data else s

/-- One entry of the search result list. -/
structure RecResult where
  product_id : List Char
  product_name : List Char
  brand_name : List Char
  category : List Char
  subcategory : List Char
  price_usd : Option ℚ
  rating : ℚ
  review_count : ℤ
  similarity_score : ℚ
  composite_score : ℚ
  sentiment_score : ℚ
  ingredients : List Char
  sample_reviews : List Char
deriving DecidableEq

/-- Build one result record from a candidate with base similarity `s`:
composite score = base + rating bonus + review-volume bonus + sentiment
bonus, price reported as unknown when not positive, review count truncated
to int, text excerpts capped. -/
def mkRecResult (lp : ℚ → ℚ) (s : ℚ) (p : Product) : RecResult :=
  { product_id := p.product_id
    product_name := p.product_name
    brand_name := p.brand_name
    category := p.primary_category
    subcategory := p.secondary_category
    price_usd := if 0 < p.price_usd then some p.price_usd else none
    rating := p.final_rating
    review_count := pyInt p.final_review_count
    similarity_score := s
    composite_score :=
      s + (p.final_rating / 5) * 0.2 + min (lp p.final_review_count / 10) 0.1
        + max p.avg_sentiment 0 * 0.1
    sentiment_score := p.avg_sentiment
    ingredients := truncateText 300 p.ingredients
    sample_reviews := truncateText 200 p.sample_reviews }

/-- Ranking relation of the sort: `a` may precede `b` when its composite
score is at least `b`'s (descending order). -/
def recLE (a b : RecResult) : Prop :=
  b.composite_score ≤ a.composite_score

instance : DecidableRel recLE :=
  fun a b => inferInstanceAs (Decidable (b.composite_score ≤ a.composite_score))

instance : IsTrans RecResult recLE :=
  ⟨fun _ _ _ h1 h2 => le_trans h2 h1⟩

instance : IsTotal RecResult recLE :=
  ⟨fun a b => le_total b.composite_score a.composite_score⟩

/-- Python's `list.sort(key=composite, reverse=True)`: a stable descending
sort.  Any stable sort has the same output, so the structural insertion sort
is used. -/
def sortResults (l : List RecResult) : List RecResult :=
  List.insertionSort recLE l

/-- Python slice `l[:n]` with an `Int` bound: a nonnegative bound takes a
prefix; a negative bound drops that many elements from the end. -/
def pySlice {α : Type} (l : List α) (n : ℤ) : List α :=
  if 0 ≤ n then l.take n.toNat else l.take (l.length - (-n).toNat)

/-- The price-range filter.  A missing or empty range is falsy and skipped;
a two-element range keeps products inside the inclusive bounds; any other
arity fails tuple unpacking and raises. -/
def priceFilter (pr : Option (List ℚ)) (l : List (ℕ × Product)) :
    Except (List Char) (List (ℕ × Product)) :=
  match pr with
  | none => .ok l
  | some [] => .ok l
  | some [mn, mx] =>
    .ok (l.filter (fun ip => decide (mn ≤ ip.2.price_usd) && decide (ip.2.price_usd ≤ mx)))
  | some _ => .error (("cannot unpack price_range").data)

/-- The brand filter: skipped when missing, empty, or the case-insensitive
literal "all"; otherwise case-insensitive substring containment against the
brand name. -/
def brandFilterFn (bf : Option (List Char)) (l : List (ℕ × Product)) :
    List (ℕ × Product) :=
  match bf with
  | none => l
  | some b =>
    if b.isEmpty then l
    else if lowerStr b = ("all").data then l
    else l.filter (fun ip => strContains (lowerStr b) (lowerStr ip.2.brand_name))

/-- Query augmentation: the cleaned query, extended—when a nonempty list of
skin concerns is supplied—by a space and the space-joined cleaned
concerns. -/
def enhancedQuery (q : List Char) (sc : Option (List (List Char))) : List Char :=
  match sc with
  | none => clean_text q
  | some cs =>
    if cs.isEmpty then clean_text q
    else clean_text q ++ ' ' :: joinWords (cs.map clean_text)

/-- The scoring loop: for every surviving candidate (with its original
catalog position), compute the cosine similarity of the query vector with
that position's document vector and keep the record only when the
similarity is strictly positive. -/
def buildResults (lp : ℚ → ℚ) (qv : List ℚ) (m : List (List ℚ)) :
    List (ℕ × Product) → List RecResult
  | [] => []
  | ip :: rest =>
    let s := cosineSim qv (m.getD ip.1 [])
    if 0 < s then mkRecResult lp s ip.2 :: buildResults lp qv m rest
    else buildResults lp qv m rest

/-- The engine's global state: the processed catalog (absent before build),
the fitted query transform and the document-vector matrix, row-aligned with
the catalog. -/
structure EngineState where
  products : Option (List Product)
  transform : List Char → List ℚ
  matrix : List (List ℚ)

/-- `get_product_recommendations`: not-ready check, price and brand filters
over position-tagged products, empty-filter shortcut, query augmentation and
transform, similarity scoring, stable descending sort by composite score,
and Python-slice truncation to `top_n`.  A filter arity error propagates as
an exception value. -/
def get_product_recommendations (st : EngineState) (lp : ℚ → ℚ) (query : List Char)
    (sc : Option (List (List Char))) (pr : Option (List ℚ)) (bf : Option (List Char))
    (top_n : ℤ) : Except (List Char) (List RecResult) :=
  match st.products with
  | none => .ok []
  | some prods =>
    match priceFilter pr prods.enum with
    | .error e => .error e
    | .ok ap =>
      let ab := brandFilterFn bf ap
      if ab.isEmpty then .ok []
      else
        .ok (pySlice (sortResults (buildResults lp (st.transform (enhancedQuery query sc))
          st.matrix ab)) top_n)

/-- Responses of the HTTP search route: success, a 400 client rejection, or
a 500 produced by the catch-all exception handler. -/
inductive ApiResponse (α : Type) where
  | ok : α → ApiResponse α
  | badRequest : List Char → ApiResponse α
  | serverError : List Char → ApiResponse α
deriving DecidableEq

/-- The `/api/search` route: reject an empty query with 400, otherwise run
the recommendation pipeline, converting a raised exception into a 500
response. -/
def search_products (st : EngineState) (lp : ℚ → ℚ) (query : List Char)
    (sc : Option (List (List Char))) (pr : Option (List ℚ)) (bf : Option (List Char))
    (limit : ℤ) : ApiResponse (List RecResult) :=
  if query.isEmpty then .badRequest (("Query is required").data)
  else
    match get_product_recommendations st lp query sc pr bf limit with
    | .ok recs => .ok recs
    | .error e => .serverError e

/-! ### Trending operation -/

/-- One entry of the trending list (the columns the route selects). -/
structure TrendingRecord where
  product_id : List Char
  product_name : List Char
  brand_name : List Char
  final_rating : ℚ
  final_review_count : ℚ
  price_usd : ℚ
  trending_score : ℚ
deriving DecidableEq

/-- The trending score column. -/
def trending_score (lp : ℚ → ℚ) (p : Product) : ℚ :=
  p.final_rating * 0.4 + lp p.final_review_count * 0.4 + (p.avg_sentiment + 1) * 2.5 * 0.2

/-- Project a product onto the columns returned by the trending route. -/
def mkTrendingRecord (lp : ℚ → ℚ) (p : Product) : TrendingRecord :=
  { product_id := p.product_id
    product_name := p.product_name
    brand_name := p.brand_name
    final_rating := p.final_rating
    final_review_count := p.final_review_count
    price_usd := p.price_usd
    trending_score := trending_score lp p }

/-- Descending order on trending records. -/
def trendLE (a b : TrendingRecord) : Prop :=
  b.trending_score ≤ a.trending_score

instance : DecidableRel trendLE :=
  fun a b => inferInstanceAs (Decidable (b.trending_score ≤ a.trending_score))

instance : IsTrans TrendingRecord trendLE :=
  ⟨fun _ _ _ h1 h2 => le_trans h2 h1⟩

instance : IsTotal TrendingRecord trendLE :=
  ⟨fun a b => le_total b.trending_score a.trending_score⟩

/-- The eligible candidates of the trending route, projected to records. -/
def trendCandidates (lp : ℚ → ℚ) (prods : List Product) : List TrendingRecord :=
  (prods.filter (fun p => decide (4 ≤ p.final_rating) && decide (50 ≤ p.final_review_count))).map
    (mkTrendingRecord lp)

/-- Stable descending sort of trending records (`nlargest` keeps first
occurrences among ties and orders descending). -/
def sortTrending (l : List TrendingRecord) : List TrendingRecord :=
  List.insertionSort trendLE l

/-- The `/api/trending` route: not-ready guard, restrict to rating ≥ 4 and
review count ≥ 50, rank by trending score descending (stable) and keep the
top 20. -/
def get_trending (st : EngineState) (lp : ℚ → ℚ) :
    Except (List Char) (List TrendingRecord) :=
  match st.products with
  | none => .error (("Data not loaded").data)
  | some prods => .ok ((sortTrending (trendCandidates lp prods)).take 20)

/-! ### Witness fixtures: small concrete engine states and their outputs -/

/-- Concrete stand-in for the library log1p in witnesses. -/
def lpW : ℚ → ℚ := fun _ => 0

/-- First witness catalog product. -/
def productW1 : Product :=
  { product_id := ("p1").data, product_name := ("Serum").data, brand_name := ("b").data
    primary_category := ("c").data, secondary_category := [], ingredients := []
    rating := 0, reviews := 0, price_usd := 0, combined_features := []
    final_rating := 0, final_review_count := 0, avg_sentiment := 0, sample_reviews := [] }

/-- Second witness catalog product (same scores: a composite-score tie). -/
def productW2 : Product :=
  { productW1 with product_id := ("p2").data, product_name := ("Cream").data }

/-- A built two-product engine state whose two candidates tie on composite
score. -/
def stW : EngineState :=
  { products := some [productW1, productW2], transform := fun _ => [1], matrix := [[1], [1]] }

/-- An engine state before build. -/
def stNoneW : EngineState :=
  { products := none, transform := fun _ => [], matrix := [] }

/-- Expected first search result over `stW`. -/
def rW1 : RecResult :=
  { product_id := ("p1").data, product_name := ("Serum").data, brand_name := ("b").data
    category := ("c").data, subcategory := [], price_usd := none, rating := 0
    review_count := 0, similarity_score := 1, composite_score := 1, sentiment_score := 0
    ingredients := [], sample_reviews := [] }

/-- Expected second search result over `stW`. -/
def rW2 : RecResult :=
  { rW1 with product_id := ("p2").data, product_name := ("Cream").data }

/-- Raw product whose secondary category and ingredients are missing: its
`combined_features` ends in two separator spaces. -/
def rawPW : RawProduct :=
  { product_id := ("r1").data, product_name := some (("x").data)
    brand_name := some (("y").data), primary_category := some (("z").data)
    secondary_category := none, ingredients := none
    rating := none, reviews := none, price_usd := none }

/-- The product built from `rawPW`. -/
def builtPW : Product :=
  buildProduct [] [] rawPW

/-- Raw product whose name is present but the empty string. -/
def rawEmptyNameW : RawProduct :=
  { rawPW with product_name := some [] }

/-- Raw catalog for the build-then-search witness. -/
def raws10W : List RawProduct :=
  [{ product_id := ("p").data, product_name := some (("x").data)
     brand_name := some (("y").data), primary_category := some (("z").data)
     secondary_category := none, ingredients := none
     rating := some 4, reviews := some 10, price_usd := some 20 }]

/-- Raw reviews for the build-then-search witness. -/
def revs10W : List RawReview :=
  [{ product_id := ("p").data, rating := some 5, review_text := none }]

/-- Engine state built from `raws10W` and `revs10W`. -/
def st10W : EngineState :=
  { products := some (load_and_preprocess_data raws10W revs10W [])
    transform := fun _ => [1], matrix := [[1]] }

/-- Expected search result over `st10W`. -/
def rec10W : RecResult :=
  { product_id := ("p").data, product_name := ("x").data, brand_name := ("y").data
    category := ("z").data, subcategory := [], price_usd := some 20, rating := 5
    review_count := 1, similarity_score := 1, composite_score := 6/5, sentiment_score := 0
    ingredients := [], sample_reviews := [] }

/-- A product eligible for trending. -/
def pT1 : Product :=
  { product_id := ("t1").data, product_name := ("T").data, brand_name := ("B").data
    primary_category := ("c").data, secondary_category := [], ingredients := []
    rating := 5, reviews := 100, price_usd := 10, combined_features := []
    final_rating := 5, final_review_count := 100, avg_sentiment := 0, sample_reviews := [] }

/-- Engine state for the trending witness. -/
def st9W : EngineState :=
  { products := some [pT1], transform := fun _ => [], matrix := [] }

/-- Expected trending record over `st9W`. -/
def tW1 : TrendingRecord :=
  { product_id := ("t1").data, product_name := ("T").data, brand_name := ("B").data
    final_rating := 5, final_review_count := 100, price_usd := 10, trending_score := 5/2 }

/-! ### Character-level lemmas for text normalization -/

theorem char_toNat_ofNat (n : Nat) (h : n.isValidChar) : (Char.ofNat n).toNat = n := by
  unfold Char.ofNat
  rw [dif_pos h]
  rfl

theorem toLower_not_upperAlpha (c : Char) : isUpperAlpha (Char.toLower c) = false := by
  simp only [Char.toLower]
  split
  case isTrue h =>
    have hv : (Char.ofNat (c.toNat + 32)).toNat = c.toNat + 32 :=
      char_toNat_ofNat _ (Or.inl (by omega))
    have h90 : ¬((Char.ofNat (c.toNat + 32)).toNat ≤ 90) := by omega
    simp [isUpperAlpha, h90]
  case isFalse h =>
    have : ¬(65 ≤ c.toNat ∧ c.toNat ≤ 90) := h
    simp only [isUpperAlpha, Bool.and_eq_false_iff, decide_eq_false_iff_not]
    omega

theorem mem_pyWordsAux {P : Char → Prop} :
    ∀ {l cur : List Char}, (∀ c ∈ cur, P c) → (∀ c ∈ l, c.isWhitespace = false → P c) →
      ∀ w ∈ pyWordsAux cur l, ∀ c ∈ w, P c := by
  intro l
  induction l with
  | nil =>
    intro cur hcur _ w hw c hc
    rw [pyWordsAux] at hw
    split at hw
    · simp at hw
    · rcases List.mem_singleton.mp hw with rfl
      exact hcur c (List.mem_reverse.mp hc)
  | cons a rest ih =>
    intro cur hcur hl w hw c hc
    rw [pyWordsAux] at hw
    split at hw
    case isTrue hws =>
      split at hw
      case isTrue hcurE =>
        exact ih (by simp) (fun c hc hw => hl c (List.mem_cons_of_mem _ hc) hw) w hw c hc
      case isFalse hcurE =>
        rcases List.mem_cons.mp hw with rfl | hw2
        · exact hcur c (List.mem_reverse.mp hc)
        · exact ih (by simp) (fun c hc hw => hl c (List.mem_cons_of_mem _ hc) hw) w hw2 c hc
    case isFalse hws =>
      refine ih ?_ (fun c hc hw => hl c (List.mem_cons_of_mem _ hc) hw) w hw c hc
      intro c hc
      rcases List.mem_cons.mp hc with rfl | hc2
      · exact hl c (List.mem_cons_self _ _) (by simpa using hws)
      · exact hcur c hc2

theorem mem_joinWords {P : Char → Prop} (hsp : P ' ') :
    ∀ {ws : List (List Char)}, (∀ w ∈ ws, ∀ c ∈ w, P c) → ∀ c ∈ joinWords ws, P c := by
  intro ws
  induction ws with
  | nil => intro _ c hc; simp [joinWords] at hc
  | cons w ws ih =>
    intro hws c hc
    cases ws with
    | nil =>
      rw [show joinWords [w] = w from rfl] at hc
      exact hws w (List.mem_singleton_self _) c hc
    | cons v vs =>
      rw [show joinWords (w :: v :: vs) = w ++ ' ' :: joinWords (v :: vs) from rfl] at hc
      rcases List.mem_append.mp hc with hc1 | hc2
      · exact hws w (List.mem_cons_self _ _) c hc1
      · rcases List.mem_cons.mp hc2 with rfl | hc3
        · exact hsp
        · exact ih (fun u hu => hws u (List.mem_cons_of_mem _ hu)) c hc3

theorem clean_text_chars (s : List Char) :
    ∀ c ∈ clean_text s, isLowerAlpha c = true ∨ isDigitChar c = true ∨ c = ' ' := by
  intro c hc
  unfold clean_text at hc
  refine @mem_joinWords (fun c => isLowerAlpha c = true ∨ isDigitChar c = true ∨ c = ' ')
    (Or.inr (Or.inr rfl)) _ ?_ c hc
  intro w hw d hd
  refine @mem_pyWordsAux (fun c => isLowerAlpha c = true ∨ isDigitChar c = true ∨ c = ' ')
    _ [] (by simp) ?_ w hw d hd
  intro e he hews
  rcases List.mem_map.mp he with ⟨g, hg, rfl⟩
  rcases List.mem_map.mp hg with ⟨x, _, rfl⟩
  unfold normChar at hews ⊢
  split at hews
  case isTrue hkeep =>
    rw [if_pos hkeep]
    unfold isKeepChar at hkeep
    rw [Bool.or_eq_true, Bool.or_eq_true, Bool.or_eq_true] at hkeep
    rcases hkeep with ((hl | hu) | hd9) | hws
    · exact Or.inl hl
    · rw [toLower_not_upperAlpha] at hu; cases hu
    · exact Or.inr (Or.inl hd9)
    · rw [hews] at hws; cases hws
  case isFalse hkeep =>
    rw [if_neg hkeep]
    exact Or.inr (Or.inr rfl)

/-! ### Pipeline helper lemmas -/

theorem snd_mem_of_mem_enumFrom {α : Type} :
    ∀ {l : List α} {n i : ℕ} {a : α}, (i, a) ∈ l.enumFrom n → a ∈ l := by
  intro l
  induction l with
  | nil => intro n i a h; simp at h
  | cons x xs ih =>
    intro n i a h
    rw [List.enumFrom_cons] at h
    rcases List.mem_cons.mp h with h1 | h2
    · have hax : a = x := (Prod.mk.inj h1).2
      rw [hax]
      exact List.mem_cons_self _ _
    · exact List.mem_cons_of_mem _ (ih h2)

theorem snd_mem_of_mem_enum {α : Type} {l : List α} {i : ℕ} {a : α}
    (h : (i, a) ∈ l.enum) : a ∈ l :=
  snd_mem_of_mem_enumFrom h

theorem mem_of_priceFilter_ok {pr : Option (List ℚ)} {l ap : List (ℕ × Product)}
    (h : priceFilter pr l = .ok ap) : ∀ ip ∈ ap, ip ∈ l := by
  intro ip hip
  cases pr with
  | none =>
    rw [show priceFilter none l = .ok l from rfl] at h
    rw [← Except.ok.inj h] at hip
    exact hip
  | some pl =>
    match pl with
    | [] =>
      rw [show priceFilter (some []) l = .ok l from rfl] at h
      rw [← Except.ok.inj h] at hip
      exact hip
    | [mn, mx] =>
      rw [show priceFilter (some [mn, mx]) l =
        .ok (l.filter (fun ip => decide (mn ≤ ip.2.price_usd) && decide (ip.2.price_usd ≤ mx)))
        from rfl] at h
      rw [← Except.ok.inj h] at hip
      exact List.mem_of_mem_filter hip
    | [mn] => cases h
    | mn :: mx :: c :: t => cases h

theorem mem_of_brandFilter {bf : Option (List Char)} {l : List (ℕ × Product)} :
    ∀ ip ∈ brandFilterFn bf l, ip ∈ l := by
  intro ip hip
  cases bf with
  | none => exact hip
  | some b =>
    rw [brandFilterFn] at hip
    split at hip
    · exact hip
    · split at hip
      · exact hip
      · exact List.mem_of_mem_filter hip

theorem brandFilter_nil (bf : Option (List Char)) : brandFilterFn bf [] = [] := by
  cases bf with
  | none => rfl
  | some b =>
    rw [brandFilterFn]
    split
    · rfl
    · split <;> rfl

theorem mem_buildResults {lp : ℚ → ℚ} {qv : List ℚ} {m : List (List ℚ)}
    {l : List (ℕ × Product)} {r : RecResult} (h : r ∈ buildResults lp qv m l) :
    ∃ ip, ip ∈ l ∧ 0 < cosineSim qv (m.getD ip.1 []) ∧
      r = mkRecResult lp (cosineSim qv (m.getD ip.1 [])) ip.2 := by
  induction l with
  | nil => simp [buildResults] at h
  | cons ip rest ih =>
    simp only [buildResults] at h
    split at h
    case isTrue hpos =>
      rcases List.mem_cons.mp h with rfl | h2
      · exact ⟨ip, List.mem_cons_self _ _, hpos, rfl⟩
      · rcases ih h2 with ⟨ip2, h1, h2a, h3⟩
        exact ⟨ip2, List.mem_cons_of_mem _ h1, h2a, h3⟩
    case isFalse hneg =>
      rcases ih h with ⟨ip2, h1, h2a, h3⟩
      exact ⟨ip2, List.mem_cons_of_mem _ h1, h2a, h3⟩

theorem mem_pySlice {α : Type} {l : List α} {n : ℤ} {a : α} (h : a ∈ pySlice l n) : a ∈ l := by
  unfold pySlice at h
  split at h <;> exact List.mem_of_mem_take h

theorem pySlice_exists_take {α : Type} (l : List α) (n : ℤ) :
    ∃ k, pySlice l n = l.take k := by
  unfold pySlice
  split
  · exact ⟨n.toNat, rfl⟩
  · exact ⟨l.length - (-n).toNat, rfl⟩

theorem pySlice_length_le {α : Type} (l : List α) {n : ℤ} (hn : 0 ≤ n) :
    (pySlice l n).length ≤ n.toNat := by
  unfold pySlice
  rw [if_pos hn, List.length_take]
  exact min_le_left _ _

theorem get_recommendations_cases (st : EngineState) (lp : ℚ → ℚ) (q : List Char)
    (sc : Option (List (List Char))) (pr : Option (List ℚ)) (bf : Option (List Char)) (n : ℤ) :
    (st.products = none ∧ get_product_recommendations st lp q sc pr bf n = .ok []) ∨
    (∃ prods e, st.products = some prods ∧ priceFilter pr prods.enum = .error e ∧
      get_product_recommendations st lp q sc pr bf n = .error e) ∨
    (∃ prods ap, st.products = some prods ∧ priceFilter pr prods.enum = .ok ap ∧
      (brandFilterFn bf ap).isEmpty = true ∧
      get_product_recommendations st lp q sc pr bf n = .ok []) ∨
    (∃ prods ap, st.products = some prods ∧ priceFilter pr prods.enum = .ok ap ∧
      (brandFilterFn bf ap).isEmpty = false ∧
      get_product_recommendations st lp q sc pr bf n =
        .ok (pySlice (sortResults (buildResults lp (st.transform (enhancedQuery q sc)) st.matrix
          (brandFilterFn bf ap))) n)) := by
  cases hp : st.products with
  | none =>
    exact Or.inl ⟨rfl, by simp [get_product_recommendations, hp]⟩
  | some prods =>
    cases hpf : priceFilter pr prods.enum with
    | error e =>
      exact Or.inr (Or.inl ⟨prods, e, rfl, hpf,
        by simp [get_product_recommendations, hp, hpf]⟩)
    | ok ap =>
      cases hab : (brandFilterFn bf ap).isEmpty with
      | true =>
        exact Or.inr (Or.inr (Or.inl ⟨prods, ap, rfl, hpf, hab,
          by simp [get_product_recommendations, hp, hpf, hab]⟩))
      | false =>
        exact Or.inr (Or.inr (Or.inr ⟨prods, ap, rfl, hpf, hab,
          by simp [get_product_recommendations, hp, hpf, hab]⟩))

theorem mem_results_provenance {st : EngineState} {lp : ℚ → ℚ} {q : List Char}
    {sc : Option (List (List Char))} {pr : Option (List ℚ)} {bf : Option (List Char)}
    {n : ℤ} {prods : List Product} {rs : List RecResult}
    (hp : st.products = some prods)
    (h : get_product_recommendations st lp q sc pr bf n = .ok rs)
    {r : RecResult} (hr : r ∈ rs) :
    ∃ ip : ℕ × Product, ip ∈ prods.enum ∧
      0 < cosineSim (st.transform (enhancedQuery q sc)) (st.matrix.getD ip.1 []) ∧
      r = mkRecResult lp
        (cosineSim (st.transform (enhancedQuery q sc)) (st.matrix.getD ip.1 [])) ip.2 := by
  rcases get_recommendations_cases st lp q sc pr bf n with
    ⟨h1, _⟩ | ⟨prods2, e, h1, _, h3⟩ | ⟨prods2, ap, h1, h2, _, h4⟩ | ⟨prods2, ap, h1, h2, _, h4⟩
  · rw [hp] at h1; cases h1
  · rw [h] at h3; cases h3
  · rw [h] at h4
    rw [Except.ok.inj h4] at hr
    simp at hr
  · rw [h] at h4
    rw [hp] at h1
    have he := Option.some.inj h1
    subst he
    rw [Except.ok.inj h4] at hr
    have hr2 := mem_pySlice hr
    have hr3 := (List.mem_insertionSort recLE).mp hr2
    rcases mem_buildResults hr3 with ⟨ip, hip, hpos, hrec⟩
    exact ⟨ip, mem_of_priceFilter_ok h2 ip (mem_of_brandFilter ip hip), hpos, hrec⟩

theorem buildProduct_final_rating (revs : List RawReview) (sents : List SentimentRow)
    (rp : RawProduct) :
    (buildProduct revs sents rp).final_rating =
      (if ((revs.filter (fun rv => decide (rv.product_id = rp.product_id))).filterMap
            (fun rv => rv.rating)).isEmpty then rp.rating.getD 0
       else ((revs.filter (fun rv => decide (rv.product_id = rp.product_id))).filterMap
            (fun rv => rv.rating)).sum /
          ((((revs.filter (fun rv => decide (rv.product_id = rp.product_id))).filterMap
            (fun rv => rv.rating)).length : ℚ))) := rfl

theorem buildProduct_final_review_count (revs : List RawReview) (sents : List SentimentRow)
    (rp : RawProduct) :
    (buildProduct revs sents rp).final_review_count =
      (if (revs.filter (fun rv => decide (rv.product_id = rp.product_id))).isEmpty
       then rp.reviews.getD 0
       else (((revs.filter (fun rv => decide (rv.product_id = rp.product_id))).filterMap
            (fun rv => rv.rating)).length : ℚ)) := rfl

theorem build_nonneg {raws : List RawProduct} {revs : List RawReview}
    {sents : List SentimentRow}
    (hraw : ∀ rp ∈ raws, 0 ≤ rp.rating.getD 0 ∧ 0 ≤ rp.reviews.getD 0)
    (hrev : ∀ rv ∈ revs, 0 ≤ rv.rating.getD 0) :
    ∀ p ∈ load_and_preprocess_data raws revs sents,
      0 ≤ p.final_rating ∧ 0 ≤ p.final_review_count := by
  intro p hp
  unfold load_and_preprocess_data at hp
  rcases List.mem_map.mp hp with ⟨rp, hrp, rfl⟩
  have hrp2 : rp ∈ raws := List.mem_of_mem_filter hrp
  have hsum : ∀ x ∈ (revs.filter (fun rv => decide (rv.product_id = rp.product_id))).filterMap
      (fun rv => rv.rating), (0 : ℚ) ≤ x := by
    intro x hx
    rcases List.mem_filterMap.mp hx with ⟨rv, hrv, hsome⟩
    have := hrev rv (List.mem_of_mem_filter hrv)
    rw [hsome] at this
    exact this
  constructor
  · rw [buildProduct_final_rating]
    split
    · exact (hraw rp hrp2).1
    · exact div_nonneg (List.sum_nonneg hsum) (Nat.cast_nonneg _)
  · rw [buildProduct_final_review_count]
    split
    · exact (hraw rp hrp2).2
    · exact Nat.cast_nonneg _

theorem get_none_ok_empty (st : EngineState) (lp : ℚ → ℚ) (q : List Char)
    (sc : Option (List (List Char))) (pr : Option (List ℚ)) (bf : Option (List Char))
    (n : ℤ) (hp : st.products = none) :
    get_product_recommendations st lp q sc pr bf n = .ok [] := by
  simp [get_product_recommendations, hp]

/-- C7.  If the search operation runs before the catalog has been built, it
returns the empty result list (no exception value). -/
theorem c7_not_ready_empty (st : EngineState) (lp : ℚ → ℚ) (q : List Char)
    (sc : Option (List (List Char))) (pr : Option (List ℚ)) (bf : Option (List Char))
    (n : ℤ) (hp : st.products = none) :
    get_product_recommendations st lp q sc pr bf n = .ok [] :=
  get_none_ok_empty st lp q sc pr bf n hp

theorem c7_not_ready_empty_witness :
    stNoneW.products = none ∧
      get_product_recommendations stNoneW lpW (("hi").data) none (some [10]) none 12 = .ok [] :=
  ⟨rfl, c7_not_ready_empty stNoneW lpW (("hi").data) none (some [10]) none 12 rfl⟩

/-- C5.  Every record in the search result list has strictly positive base
similarity: a candidate whose cosine similarity with the query vector is 0
never appears, whatever its rating, review-count, or sentiment bonuses. -/
theorem c5_positive_similarity {st : EngineState} {lp : ℚ → ℚ} {q : List Char}
    {sc : Option (List (List Char))} {pr : Option (List ℚ)} {bf : Option (List Char)}
    {n : ℤ} {rs : List RecResult}
    (h : get_product_recommendations st lp q sc pr bf n = .ok rs) :
    ∀ r ∈ rs, 0 < r.similarity_score := by
  intro r hr
  cases hp : st.products with
  | none =>
    rw [get_none_ok_empty st lp q sc pr bf n hp] at h
    rw [← Except.ok.inj h] at hr
    simp at hr
  | some prods =>
    rcases mem_results_provenance hp h hr with ⟨ip, _, hpos, rfl⟩
    exact hpos

theorem c5_positive_similarity_witness : 0 < rW1.similarity_score :=
  @c5_positive_similarity stW lpW (("hi").data) none none none 12 [rW1, rW2]
    (by with_unfolding_all rfl) rW1 (by decide)

/-- C1.  Every returned record's composite score is exactly
base + rating bonus + review-volume bonus + sentiment bonus, where the base
is the cosine similarity of the (augmented) query vector with the product's
document vector, the rating bonus is (final_rating / 5) * 0.2, the review
bonus is min(log1p(final_review_count) / 10, 0.1), and the sentiment bonus
is max(avg_sentiment, 0) * 0.1. -/
theorem c1_composite_score_formula {st : EngineState} (lp : ℚ → ℚ) {q : List Char}
    {sc : Option (List (List Char))} {pr : Option (List ℚ)} {bf : Option (List Char)}
    {n : ℤ} {prods : List Product} {rs : List RecResult}
    (hp : st.products = some prods)
    (h : get_product_recommendations st lp q sc pr bf n = .ok rs) :
    ∀ r ∈ rs, ∃ idx p, (idx, p) ∈ prods.enum ∧
      r.similarity_score =
        cosineSim (st.transform (enhancedQuery q sc)) (st.matrix.getD idx []) ∧
      r.rating = p.final_rating ∧
      r.sentiment_score = p.avg_sentiment ∧
      r.composite_score = r.similarity_score + (p.final_rating / 5) * 0.2
        + min (lp p.final_review_count / 10) 0.1 + max p.avg_sentiment 0 * 0.1 := by
  intro r hr
  rcases mem_results_provenance hp h hr with ⟨ip, hip, _, rfl⟩
  exact ⟨ip.1, ip.2, hip, rfl, rfl, rfl, rfl⟩

theorem c1_composite_score_formula_witness :
    ∃ idx p, (idx, p) ∈ [productW1, productW2].enum ∧
      rW1.similarity_score =
        cosineSim (stW.transform (enhancedQuery (("hi").data) none)) (stW.matrix.getD idx []) ∧
      rW1.rating = p.final_rating ∧
      rW1.sentiment_score = p.avg_sentiment ∧
      rW1.composite_score = rW1.similarity_score + (p.final_rating / 5) * 0.2
        + min (lpW p.final_review_count / 10) 0.1 + max p.avg_sentiment 0 * 0.1 :=
  @c1_composite_score_formula stW lpW (("hi").data) none none none 12 [productW1, productW2]
    [rW1, rW2] rfl (by with_unfolding_all rfl) rW1 (by decide)

/-- C10.  When the engine state was produced by the build step from inputs
whose listed ratings, listed review counts and review ratings are
non-negative, and log1p is non-negative on non-negative arguments, every
returned record's composite score is at least its base similarity: the
three ranking bonuses are non-negative. -/
theorem c10_composite_ge_similarity {raws : List RawProduct} {revs : List RawReview}
    {sents : List SentimentRow} {st : EngineState} {lp : ℚ → ℚ} {q : List Char}
    {sc : Option (List (List Char))} {pr : Option (List ℚ)} {bf : Option (List Char)}
    {n : ℤ} {rs : List RecResult}
    (hst : st.products = some (load_and_preprocess_data raws revs sents))
    (hraw : ∀ rp ∈ raws, 0 ≤ rp.rating.getD 0 ∧ 0 ≤ rp.reviews.getD 0)
    (hrev : ∀ rv ∈ revs, 0 ≤ rv.rating.getD 0)
    (hlp : ∀ x : ℚ, 0 ≤ x → 0 ≤ lp x)
    (h : get_product_recommendations st lp q sc pr bf n = .ok rs) :
    ∀ r ∈ rs, r.similarity_score ≤ r.composite_score := by
  intro r hr
  rcases mem_results_provenance hst h hr with ⟨ip, hip, _, rfl⟩
  obtain ⟨i, p⟩ := ip
  have hpmem : p ∈ load_and_preprocess_data raws revs sents := snd_mem_of_mem_enum hip
  rcases build_nonneg hraw hrev p hpmem with ⟨hfr, hfc⟩
  set s := cosineSim (st.transform (enhancedQuery q sc)) (st.matrix.getD (i, p).1 []) with hs
  show s ≤ s + (p.final_rating / 5) * 0.2 + min (lp p.final_review_count / 10) 0.1
    + max p.avg_sentiment 0 * 0.1
  have hb1 : 0 ≤ (p.final_rating / 5) * 0.2 :=
    mul_nonneg (div_nonneg hfr (by norm_num)) (by norm_num)
  have hb2 : (0 : ℚ) ≤ min (lp p.final_review_count / 10) 0.1 :=
    le_min (div_nonneg (hlp _ hfc) (by norm_num)) (by norm_num)
  have hb3 : 0 ≤ max p.avg_sentiment 0 * 0.1 :=
    mul_nonneg (le_max_right _ _) (by norm_num)
  linarith

theorem c10_composite_ge_similarity_witness :
    rec10W.similarity_score ≤ rec10W.composite_score :=
  @c10_composite_ge_similarity raws10W revs10W [] st10W lpW (("x").data) none none none 12
    [rec10W] rfl (by decide) (by decide) (fun x _ => le_refl 0)
    (by with_unfolding_all rfl) rec10W (List.mem_singleton_self rec10W)

/-- C2 (counterexample).  With `top_n = -1` the search operation returns a
nonempty list (the Python slice drops only the last element), refuting the
claim that every `top_n ≤ 0` yields the empty list. -/
theorem c2_negative_topn_counterexample :
    get_product_recommendations stW lpW (("hi").data) none none none (-1) = .ok [rW1] ∧
    ([rW1] : List RecResult) ≠ [] :=
  ⟨by with_unfolding_all rfl, by simp⟩

/-- C2 (amended).  For every nonnegative `top_n`, the search operation
returns at most `top_n` results, and `top_n = 0` yields the empty list;
a negative `top_n` instead drops that many elements from the end of the
ranked list (Python slice semantics). -/
theorem c2_truncation_amended {st : EngineState} {lp : ℚ → ℚ} {q : List Char}
    {sc : Option (List (List Char))} {pr : Option (List ℚ)} {bf : Option (List Char)}
    {rs : List RecResult} {n : ℤ} (hn : 0 ≤ n)
    (h : get_product_recommendations st lp q sc pr bf n = .ok rs) :
    rs.length ≤ n.toNat ∧ (n = 0 → rs = []) := by
  rcases get_recommendations_cases st lp q sc pr bf n with
    ⟨_, h2⟩ | ⟨_, _, _, _, h3⟩ | ⟨_, _, _, _, _, h2⟩ | ⟨_, _, _, _, _, h2⟩
  · have he : rs = [] := Except.ok.inj (h.symm.trans h2)
    rw [he]
    exact ⟨Nat.zero_le _, fun _ => rfl⟩
  · rw [h] at h3
    cases h3
  · have he : rs = [] := Except.ok.inj (h.symm.trans h2)
    rw [he]
    exact ⟨Nat.zero_le _, fun _ => rfl⟩
  · have he := Except.ok.inj (h.symm.trans h2)
    rw [he]
    refine ⟨pySlice_length_le _ hn, fun h0 => ?_⟩
    rw [h0]
    simp [pySlice]

theorem c2_truncation_amended_witness :
    (0 : ℤ) ≤ 12 ∧
      (([rW1, rW2] : List RecResult).length ≤ (12 : ℤ).toNat ∧
        ((12 : ℤ) = 0 → ([rW1, rW2] : List RecResult) = [])) :=
  ⟨by decide,
    @c2_truncation_amended stW lpW (("hi").data) none none none [rW1, rW2] 12
      (by decide) (by with_unfolding_all rfl)⟩

/-- C4.  The returned list is sorted descending by composite score, it is a
prefix of the stable descending sort of the scored candidates (which are in
catalog order), and any two scored candidates with equal composite scores
keep their original relative (catalog) order in the sorted list. -/
theorem c4_sorted_stable {st : EngineState} (lp : ℚ → ℚ) {q : List Char}
    {sc : Option (List (List Char))} {pr : Option (List ℚ)} {bf : Option (List Char)}
    {n : ℤ} {prods : List Product} {ap : List (ℕ × Product)} {rs : List RecResult}
    (hp : st.products = some prods)
    (hpf : priceFilter pr prods.enum = .ok ap)
    (h : get_product_recommendations st lp q sc pr bf n = .ok rs) :
    rs.Pairwise (fun a b => b.composite_score ≤ a.composite_score) ∧
    (∃ t, rs ++ t = sortResults (buildResults lp (st.transform (enhancedQuery q sc)) st.matrix
      (brandFilterFn bf ap))) ∧
    (∀ a b : RecResult,
      List.Sublist [a, b] (buildResults lp (st.transform (enhancedQuery q sc)) st.matrix
        (brandFilterFn bf ap)) →
      a.composite_score = b.composite_score →
      List.Sublist [a, b] (sortResults (buildResults lp (st.transform (enhancedQuery q sc))
        st.matrix (brandFilterFn bf ap)))) := by
  have hstable : ∀ a b : RecResult,
      List.Sublist [a, b] (buildResults lp (st.transform (enhancedQuery q sc)) st.matrix
        (brandFilterFn bf ap)) →
      a.composite_score = b.composite_score →
      List.Sublist [a, b] (sortResults (buildResults lp (st.transform (enhancedQuery q sc))
        st.matrix (brandFilterFn bf ap))) := by
    intro a b hsub heq
    exact List.pair_sublist_insertionSort (show recLE a b from heq.ge) hsub
  rcases get_recommendations_cases st lp q sc pr bf n with
    ⟨h1, _⟩ | ⟨_, e, _, _, h3⟩ | ⟨prods2, ap2, h1, h2, hab, h4⟩ | ⟨prods2, ap2, h1, h2, _, h4⟩
  · rw [hp] at h1
    cases h1
  · rw [h] at h3
    cases h3
  · rw [hp] at h1
    have he := Option.some.inj h1
    subst he
    have hap := Except.ok.inj (hpf.symm.trans h2)
    subst hap
    have hemp : brandFilterFn bf ap = [] := List.isEmpty_iff.mp hab
    have he2 : rs = [] := Except.ok.inj (h.symm.trans h4)
    rw [he2, hemp]
    exact ⟨List.Pairwise.nil, ⟨[], rfl⟩, by rw [hemp] at hstable; exact hstable⟩
  · rw [hp] at h1
    have he := Option.some.inj h1
    subst he
    have hap := Except.ok.inj (hpf.symm.trans h2)
    subst hap
    have he2 := Except.ok.inj (h.symm.trans h4)
    have hsorted : (sortResults (buildResults lp (st.transform (enhancedQuery q sc)) st.matrix
        (brandFilterFn bf ap))).Pairwise recLE :=
      List.sorted_insertionSort recLE _
    rcases pySlice_exists_take (sortResults (buildResults lp (st.transform (enhancedQuery q sc))
      st.matrix (brandFilterFn bf ap))) n with ⟨k, hk⟩
    rw [he2, hk]
    refine ⟨List.Pairwise.sublist (List.take_sublist _ _) hsorted,
      ⟨(sortResults (buildResults lp (st.transform (enhancedQuery q sc)) st.matrix
        (brandFilterFn bf ap))).drop k, List.take_append_drop _ _⟩, hstable⟩

theorem c4_sorted_stable_witness :
    ([rW1, rW2] : List RecResult).Pairwise
      (fun a b => b.composite_score ≤ a.composite_score) ∧
    (∃ t, [rW1, rW2] ++ t = sortResults (buildResults lpW
      (stW.transform (enhancedQuery (("hi").data) none)) stW.matrix
      (brandFilterFn none ([productW1, productW2].enum)))) ∧
    (∀ a b : RecResult,
      List.Sublist [a, b] (buildResults lpW
        (stW.transform (enhancedQuery (("hi").data) none)) stW.matrix
        (brandFilterFn none ([productW1, productW2].enum))) →
      a.composite_score = b.composite_score →
      List.Sublist [a, b] (sortResults (buildResults lpW
        (stW.transform (enhancedQuery (("hi").data) none)) stW.matrix
        (brandFilterFn none ([productW1, productW2].enum))))) :=
  @c4_sorted_stable stW lpW (("hi").data) none none none 12 [productW1, productW2]
    ([productW1, productW2].enum) [rW1, rW2] rfl rfl (by with_unfolding_all rfl)

/-- C9.  The trending operation returns exactly the top-20 prefix of the
stable descending ranking of the eligible candidates: the returned list is
a prefix of the stable sort (by trending score, descending) of the
candidates — the catalog products with final_rating at least 4 and
final_review_count at least 50, in catalog order — and its length is the
minimum of 20 and the number of eligible candidates (so it is the full top
20 whenever at least 20 are eligible).  The returned list is sorted
descending by trending score; every returned record comes from an eligible
catalog product and carries the score 0.4 * final_rating
+ 0.4 * log1p(final_review_count) + 0.2 * (avg_sentiment + 1) * 2.5; when
at most 20 products are eligible, every eligible product appears; and
equal-score candidates keep their original catalog order in the stable
ranking of which the result is a prefix (stable, deterministic ties). -/
theorem c9_trending_spec {st : EngineState} (lp : ℚ → ℚ) {prods : List Product}
    {ts : List TrendingRecord}
    (hp : st.products = some prods)
    (h : get_trending st lp = .ok ts) :
    (∃ t, ts ++ t = sortTrending (trendCandidates lp prods)) ∧
    ts.length = min 20 (trendCandidates lp prods).length ∧
    ts.Pairwise (fun a b => b.trending_score ≤ a.trending_score) ∧
    (∀ t ∈ ts, ∃ p, p ∈ prods ∧ 4 ≤ p.final_rating ∧ 50 ≤ p.final_review_count ∧
      t = mkTrendingRecord lp p ∧
      t.trending_score = 0.4 * p.final_rating + 0.4 * lp p.final_review_count
        + 0.2 * (p.avg_sentiment + 1) * 2.5) ∧
    ((trendCandidates lp prods).length ≤ 20 →
      ∀ p, p ∈ prods → 4 ≤ p.final_rating → 50 ≤ p.final_review_count →
        mkTrendingRecord lp p ∈ ts) ∧
    (∀ a b : TrendingRecord, List.Sublist [a, b] (trendCandidates lp prods) →
      a.trending_score = b.trending_score →
      List.Sublist [a, b] (sortTrending (trendCandidates lp prods))) := by
  have hcomp : get_trending st lp = .ok ((sortTrending (trendCandidates lp prods)).take 20) := by
    simp [get_trending, hp, sortTrending, trendCandidates]
  have hts : ts = (sortTrending (trendCandidates lp prods)).take 20 :=
    Except.ok.inj (h.symm.trans hcomp)
  subst hts
  refine ⟨?_, ?_, ?_, ?_, ?_, ?_⟩
  · exact ⟨(sortTrending (trendCandidates lp prods)).drop 20, List.take_append_drop _ _⟩
  · rw [List.length_take]
    congr 1
    exact (List.perm_insertionSort trendLE (trendCandidates lp prods)).length_eq
  · exact List.Pairwise.sublist (List.take_sublist _ _)
      (List.sorted_insertionSort trendLE _)
  · intro t ht
    have ht2 := (List.mem_insertionSort trendLE).mp (List.mem_of_mem_take ht)
    rcases List.mem_map.mp ht2 with ⟨p, hpf, rfl⟩
    rcases List.mem_filter.mp hpf with ⟨hpm, hcond⟩
    rw [Bool.and_eq_true] at hcond
    refine ⟨p, hpm, of_decide_eq_true hcond.1, of_decide_eq_true hcond.2, rfl, ?_⟩
    show trending_score lp p = _
    unfold trending_score
    ring
  · intro hlen p hpm h4 h50
    have hmem : mkTrendingRecord lp p ∈ trendCandidates lp prods :=
      List.mem_map.mpr ⟨p, List.mem_filter.mpr ⟨hpm, by
        rw [Bool.and_eq_true]
        exact ⟨decide_eq_true h4, decide_eq_true h50⟩⟩, rfl⟩
    have hle : (sortTrending (trendCandidates lp prods)).length ≤ 20 := by
      rw [show (sortTrending (trendCandidates lp prods)).length
        = (trendCandidates lp prods).length from
          (List.perm_insertionSort trendLE (trendCandidates lp prods)).length_eq]
      exact hlen
    rw [List.take_of_length_le hle]
    exact (List.mem_insertionSort trendLE).mpr hmem
  · intro a b hsub heq
    exact List.pair_sublist_insertionSort (show trendLE a b from heq.ge) hsub

theorem c9_trending_spec_witness :
    (∃ t, ([tW1] : List TrendingRecord) ++ t = sortTrending (trendCandidates lpW [pT1])) ∧
    ([tW1] : List TrendingRecord).length = min 20 (trendCandidates lpW [pT1]).length ∧
    ([tW1] : List TrendingRecord).Pairwise
      (fun a b => b.trending_score ≤ a.trending_score) ∧
    (∀ t ∈ ([tW1] : List TrendingRecord), ∃ p, p ∈ [pT1] ∧ 4 ≤ p.final_rating ∧
      50 ≤ p.final_review_count ∧ t = mkTrendingRecord lpW p ∧
      t.trending_score = 0.4 * p.final_rating + 0.4 * lpW p.final_review_count
        + 0.2 * (p.avg_sentiment + 1) * 2.5) ∧
    ((trendCandidates lpW [pT1]).length ≤ 20 →
      ∀ p, p ∈ [pT1] → 4 ≤ p.final_rating → 50 ≤ p.final_review_count →
        mkTrendingRecord lpW p ∈ ([tW1] : List TrendingRecord)) ∧
    (∀ a b : TrendingRecord, List.Sublist [a, b] (trendCandidates lpW [pT1]) →
      a.trending_score = b.trending_score →
      List.Sublist [a, b] (sortTrending (trendCandidates lpW [pT1]))) :=
  @c9_trending_spec st9W lpW [pT1] [tW1] rfl (by with_unfolding_all rfl)

/-- C3 (counterexample).  A product whose secondary category and
ingredients are missing yields a `combined_features` string that ends in
two consecutive spaces, refuting the single-spaces-only claim. -/
theorem c3_double_space_counterexample :
    (load_and_preprocess_data [rawPW] [] []).map Product.combined_features
      = [("x y z  ").data] ∧
    hasDoubleSpace (("x y z  ").data) = true :=
  ⟨by decide, by decide⟩

/-- C3 (amended).  After the build step, `combined_features` contains only
lowercase letters, digits and spaces; runs of consecutive spaces can occur
(exactly via the fixed separators around fields that normalize to the empty
string), so only the character-class part of the claim holds. -/
theorem c3_combined_features_charset (raws : List RawProduct) (revs : List RawReview)
    (sents : List SentimentRow) :
    ∀ p ∈ load_and_preprocess_data raws revs sents, ∀ c ∈ p.combined_features,
      isLowerAlpha c = true ∨ isDigitChar c = true ∨ c = ' ' := by
  intro p hp c hc
  unfold load_and_preprocess_data at hp
  rcases List.mem_map.mp hp with ⟨rp, _, rfl⟩
  have hcf : (buildProduct revs sents rp).combined_features =
      clean_text (rp.product_name.getD []) ++ ' ' ::
        (clean_text (rp.brand_name.getD (("Unknown Brand").data)) ++ ' ' ::
          (clean_text (rp.primary_category.getD (("Skincare").data)) ++ ' ' ::
            (clean_text (rp.secondary_category.getD []) ++ ' ' ::
              clean_text (rp.ingredients.getD [])))) := rfl
  rw [hcf] at hc
  rcases List.mem_append.mp hc with h1 | h2
  · exact clean_text_chars _ c h1
  rcases List.mem_cons.mp h2 with rfl | h3
  · exact Or.inr (Or.inr rfl)
  rcases List.mem_append.mp h3 with h4 | h5
  · exact clean_text_chars _ c h4
  rcases List.mem_cons.mp h5 with rfl | h6
  · exact Or.inr (Or.inr rfl)
  rcases List.mem_append.mp h6 with h7 | h8
  · exact clean_text_chars _ c h7
  rcases List.mem_cons.mp h8 with rfl | h9
  · exact Or.inr (Or.inr rfl)
  rcases List.mem_append.mp h9 with h10 | h11
  · exact clean_text_chars _ c h10
  rcases List.mem_cons.mp h11 with rfl | h12
  · exact Or.inr (Or.inr rfl)
  · exact clean_text_chars _ c h12

theorem c3_combined_features_charset_witness :
    isLowerAlpha 'x' = true ∨ isDigitChar 'x' = true ∨ 'x' = ' ' :=
  c3_combined_features_charset [rawPW] [] [] builtPW (by decide) 'x' (by decide)

/-- C6 (counterexample).  A price range with min greater than max is
processed silently: the search route answers with a normal success response
holding the empty result list, not with a rejected request. -/
theorem c6_min_gt_max_counterexample :
    search_products stW lpW (("hi").data) none (some [10, 5]) none 12 = .ok [] := by
  with_unfolding_all rfl

/-- C6 (amended).  A price range supplied with any number of bounds other
than two fails tuple unpacking and surfaces to the caller as an error
response (the catch-all 500); a two-bound range with min greater than max is
not rejected: it is silently processed, filters out every product, and
yields a success response with the empty list.  Core state is immutable by
construction, hence unaffected in both cases. -/
theorem c6_price_range_amended {st : EngineState} (lp : ℚ → ℚ) (q : List Char)
    (sc : Option (List (List Char))) (bf : Option (List Char)) (n : ℤ)
    {prods : List Product} (hp : st.products = some prods) (hq : q ≠ []) :
    (∀ pr : List ℚ, pr ≠ [] → pr.length ≠ 2 →
      search_products st lp q sc (some pr) bf n
        = .serverError (("cannot unpack price_range").data)) ∧
    (∀ mn mx : ℚ, mx < mn →
      search_products st lp q sc (some [mn, mx]) bf n = .ok []) := by
  constructor
  · intro pr hne hlen
    cases q with
    | nil => exact absurd rfl hq
    | cons qc qt =>
      match pr, hne, hlen with
      | [a], _, _ =>
        simp [search_products, get_product_recommendations, hp, priceFilter]
      | [a, b], _, hlen => exact absurd rfl hlen
      | a :: b :: c :: t, _, _ =>
        simp [search_products, get_product_recommendations, hp, priceFilter]
  · intro mn mx hlt
    cases q with
    | nil => exact absurd rfl hq
    | cons qc qt =>
      have hfil : priceFilter (some [mn, mx]) prods.enum = .ok [] := by
        rw [show priceFilter (some [mn, mx]) prods.enum
          = .ok (prods.enum.filter (fun ip =>
              decide (mn ≤ ip.2.price_usd) && decide (ip.2.price_usd ≤ mx))) from rfl]
        congr 1
        rw [List.filter_eq_nil_iff]
        intro ip _
        rw [Bool.and_eq_true, decide_eq_true_eq, decide_eq_true_eq]
        rintro ⟨h1, h2⟩
        exact absurd (le_trans h1 h2) (not_le.mpr hlt)
      simp [search_products, get_product_recommendations, hp, hfil, brandFilter_nil]

theorem c6_price_range_amended_witness :
    search_products stW lpW (("hi").data) none (some [10]) none 12
      = .serverError (("cannot unpack price_range").data) ∧
    search_products stW lpW (("hi").data) none (some [10, 5]) none 12 = .ok [] :=
  ⟨(@c6_price_range_amended stW lpW (("hi").data) none none 12 [productW1, productW2]
      rfl (by decide)).1 [10] (by decide) (by decide),
   (@c6_price_range_amended stW lpW (("hi").data) none none 12 [productW1, productW2]
      rfl (by decide)).2 10 5 (by decide)⟩

/-- C8 (counterexample).  A product whose name is present but equal to the
empty string is kept by the build step, refuting the claim that
empty-string names are dropped. -/
theorem c8_empty_name_counterexample :
    (load_and_preprocess_data [rawEmptyNameW] [] []).length = 1 ∧
    (load_and_preprocess_data [rawEmptyNameW] [] []).map Product.product_name = [[]] :=
  ⟨by decide, by decide⟩

/-- C8 (amended).  The build step drops exactly the rows whose name is
missing (null): the processed catalog has one product per raw row with a
present name — empty-string names included — and each processed product is
the build of such a row; this is the only filtering performed. -/
theorem c8_dropna_missing_only (raws : List RawProduct) (revs : List RawReview)
    (sents : List SentimentRow) :
    (load_and_preprocess_data raws revs sents).length
      = (raws.filter (fun rp => rp.product_name.isSome)).length ∧
    ∀ p ∈ load_and_preprocess_data raws revs sents,
      ∃ rp, rp ∈ raws ∧ rp.product_name.isSome = true ∧ p = buildProduct revs sents rp := by
  constructor
  · unfold load_and_preprocess_data
    exact List.length_map _ _
  · intro p hp
    unfold load_and_preprocess_data at hp
    rcases List.mem_map.mp hp with ⟨rp, hrp, rfl⟩
    rcases List.mem_filter.mp hrp with ⟨h1, h2⟩
    exact ⟨rp, h1, h2, rfl⟩

theorem c8_dropna_missing_only_witness :
    (load_and_preprocess_data [rawEmptyNameW] [] []).length
      = ([rawEmptyNameW].filter (fun rp => rp.product_name.isSome)).length :=
  (c8_dropna_missing_only [rawEmptyNameW] [] []).1
